import Mathlib

/-!
Verification of the Linkwarden Alfred workflow core
(`cache_manager.py`, `linkwarden_api.py`).

The Python source is shallowly embedded:

* `CacheManager` (file-based TTL cache) becomes explicit state passing over
  `CacheState`; a cache file on disk is a `(name, FileContent)` pair in an
  association list, with `FileContent.corrupt` standing for a file whose
  contents `json.load` cannot parse.  Wall-clock time (`time.time()`) is an
  explicit `Int` argument `now`.
* JSON-serialisable payloads become the inductive `JVal`.
* `LinkwardenAPI.search_links` and the two-phase part of
  `LinkwardenAPI.create_link` are embedded as pure functions parameterised by
  the remote call (`fetch` / `post` / `put`), which returns
  `Except`-classified outcomes.  `_make_request` signals failure either by
  `sys.exit(1)` (Alfred output mode), modelled as `ReqFailure.exited`, or by
  raising an ordinary `Exception` (non-Alfred mode), modelled as
  `ReqFailure.raised`; Python's `except Exception` catches the latter but not
  the former (`SystemExit` derives from `BaseException`).
-/

/-! ## JSON values (cacheable payloads) -/

/-- A JSON-serialisable value, the kind of payload `CacheManager.set` accepts
(`value: Any` that `json.dump` can serialise). Numbers are modelled as `Int`. -/
inductive JVal where
  | null : JVal
  | bool (b : Bool) : JVal
  | num (n : Int) : JVal
  | str (s : String) : JVal
  | arr (xs : List JVal) : JVal
  | obj (kvs : List (String × JVal)) : JVal

/-! ## Cache manager (`src/cache_manager.py`) -/

namespace CacheManager

/-- Contents of one cache file in the cache directory.
`corrupt` models a file `json.load` fails on; `entry v ea` models the JSON
document written by `set` (`{'value': v, 'expires_at': ea, 'created_at': …}`),
with `ea = none` for a parseable document lacking the `'expires_at'` key. -/
inductive FileContent where
  | corrupt : FileContent
  | entry (value : JVal) (expiresAt : Option Int) : FileContent

/-- The mutable state of a `CacheManager`: the cache directory (an association
list from sanitized file name to file contents) plus the `stats` counters. -/
structure CacheState where
  files : List (String × FileContent)
  hits : Nat
  misses : Nat
  sets : Nat
  expired : Nat
  errors : Nat

/-- A fresh cache manager over an empty cache directory
(`CacheManager.__init__`). -/
def CacheState.empty : CacheState := ⟨[], 0, 0, 0, 0, 0⟩

/-- Characters kept by `_get_cache_file`'s sanitisation:
`c.isalnum() or c in ('_', '-', '.')`. -/
def keepChar (c : Char) : Bool :=
  c.isAlphanum || c = '_' || c = '-' || c = '.'

/-- `_get_cache_file` (cache_manager.py:60-63): the safe key obtained by
dropping every character `keepChar` rejects; the cache file is
`{safe_key}.json`, so the safe key is the entry's identity. -/
def sanitizeKey (key : String) : String :=
  String.mk (key.data.filter keepChar)

/-- Look a file name up in the cache directory. -/
def lookupFC : List (String × FileContent) → String → Option FileContent
  | [], _ => none
  | (k', c) :: rest, k => if k' = k then some c else lookupFC rest k

/-- Remove a file from the cache directory (`cache_file.unlink`). -/
def eraseKey (files : List (String × FileContent)) (k : String) :
    List (String × FileContent) :=
  files.filter (fun p => p.1 ≠ k)

/-- `_is_expired` (cache_manager.py:65-69): `True` if `'expires_at'` is
missing, else `time.time() > cache_data['expires_at']`. -/
def isExpiredAt (now : Int) : Option Int → Bool
  | none => true
  | some ea => now > ea

/-- `CacheManager.get` (cache_manager.py:71-109).  Returns
`(value, hit, new state)`:
* missing file → `(None, False)`, `misses += 1`;
* unparseable file → the `except` path: `(None, False)`, `errors += 1`,
  `misses += 1`;
* expired entry → file unlinked, `expired += 1`, `misses += 1`,
  `(None, False)`;
* live entry → `hits += 1`, `(value, True)`. -/
def get (s : CacheState) (now : Int) (key : String) :
    Option JVal × Bool × CacheState :=
  let k := sanitizeKey key
  match lookupFC s.files k with
  | none => (none, false, { s with misses := s.misses + 1 })
  | some FileContent.corrupt =>
      (none, false, { s with errors := s.errors + 1, misses := s.misses + 1 })
  | some (FileContent.entry v ea) =>
      if isExpiredAt now ea then
        (none, false,
          { s with files := eraseKey s.files k,
                   expired := s.expired + 1, misses := s.misses + 1 })
      else
        (some v, true, { s with hits := s.hits + 1 })

/-- `CacheManager.set` (cache_manager.py:111-142): writes
`{'value': value, 'expires_at': now + ttl_seconds, 'created_at': now}` to the
key's file (overwriting any previous contents), increments `sets`, returns
`True`.  The I/O-failure branch (`except` → `errors += 1`, `False`) cannot
occur in this in-memory model of the file system. -/
def set (s : CacheState) (now : Int) (key : String) (value : JVal)
    (ttlSeconds : Int) : Bool × CacheState :=
  let k := sanitizeKey key
  (true,
    { s with
        files := (k, FileContent.entry value (some (now + ttlSeconds)))
                   :: eraseKey s.files k,
        sets := s.sets + 1 })

/-- Whether `cleanup_expired` removes a file: unparseable files are removed as
corrupted, parseable ones iff `_is_expired`. -/
def removableAt (now : Int) : FileContent → Bool
  | FileContent.corrupt => true
  | FileContent.entry _ ea => isExpiredAt now ea

/-- `CacheManager.cleanup_expired` (cache_manager.py:184-214): scans every
cache file, unlinking those that fail to parse (corrupted) and those whose
entry `_is_expired`; returns the number removed and adds it to the `expired`
counter. -/
def cleanup_expired (s : CacheState) (now : Int) : Nat × CacheState :=
  let removed := s.files.filter (fun p => removableAt now p.2)
  ( removed.length,
    { s with
        files := s.files.filter (fun p => !(removableAt now p.2)),
        expired := s.expired + removed.length } )

end CacheManager

/-! ## TTL configuration (`LinkwardenAPI._get_ttl_from_env`) -/

namespace LinkwardenAPI

/-- `_get_ttl_from_env` (linkwarden_api.py:87-118).  `parsed` is the
environment variable after Python's `int(value)`: `none` when the variable is
unset (or when `int` raised `ValueError`, which also returns the default).
Values below 30 are clamped to 30, values above 86400 to 86400. -/
def getTtlFromEnv (parsed : Option Int) (default : Int) : Int :=
  match parsed with
  | none => default
  | some ttl =>
      if ttl < 30 then 30
      else if ttl > 86400 then 86400
      else ttl

/-- `self.cache_ttl_collections` (linkwarden_api.py:65): override
`LW_CACHE_COLLECTIONS_TTL`, default 600 s. -/
def cacheTtlCollections (env : Option Int) : Int := getTtlFromEnv env 600

/-- `self.cache_ttl_tags` (linkwarden_api.py:66): override
`LW_CACHE_TAGS_TTL`, default 600 s. -/
def cacheTtlTags (env : Option Int) : Int := getTtlFromEnv env 600

/-- `self.cache_ttl_search` (linkwarden_api.py:67): override
`LW_CACHE_SEARCH_TTL`, default 120 s. -/
def cacheTtlSearch (env : Option Int) : Int := getTtlFromEnv env 120

/-! ## Reference-data cache keys (`get_collections` / `get_tags`) -/

/-- The cache key of `get_collections` (linkwarden_api.py:320):
`f"collections_{self.api_url}_{hash(self.api_token) % 10000}"`.
`pyHash` stands for Python's built-in `hash` on strings, which is salted per
process by `PYTHONHASHSEED` (hash randomisation), so it is a parameter of the
process, not a fixed function; `%` on a positive modulus matches `Int.emod`. -/
def collectionsCacheKey (pyHash : String → Int) (apiUrl apiToken : String) :
    String :=
  "collections_" ++ apiUrl ++ "_" ++ toString (pyHash apiToken % (10000 : Int))

/-- The cache key of `get_tags` (linkwarden_api.py:348):
`f"tags_{self.api_url}_{hash(self.api_token) % 10000}"`. -/
def tagsCacheKey (pyHash : String → Int) (apiUrl apiToken : String) : String :=
  "tags_" ++ apiUrl ++ "_" ++ toString (pyHash apiToken % (10000 : Int))

/-! ## Search aggregation (`LinkwardenAPI.search_links`) -/

/-- How `_make_request` signals a remote failure (linkwarden_api.py:175-216):
in Alfred output mode it prints an error item and calls `sys.exit(1)`
(`SystemExit`, which `except Exception` does NOT catch) — `exited`; with
`output_alfred_format=False` it raises an ordinary `Exception` — `raised`. -/
inductive ReqFailure where
  | exited : ReqFailure
  | raised : ReqFailure
deriving DecidableEq, Repr

/-- A link as returned inside a search response's `'response'` array.
`id` is `link.get('id')` (`none` when the key is absent); `payload` stands
for the remaining fields (url, name, …), irrelevant to aggregation. -/
structure Link where
  id : Option Int
  payload : String
deriving DecidableEq, Repr

/-- The truthy link id used for de-duplication
(`link_id = link.get('id'); if link_id and link_id not in seen_links`,
linkwarden_api.py:288-289): `none` when the id is absent or falsy (`0`). -/
def truthyId (l : Link) : Option Int :=
  match l.id with
  | some n => if n = 0 then none else some n
  | none => none

/-- Python string truthiness for optional query parameters
(`if combo['collection']:` etc.): an empty string counts as absent. -/
def truthyStr : Option String → Option String
  | some s => if s = "" then none else some s
  | none => none

/-- The query parameters of one underlying `/links` search call
(linkwarden_api.py:261-280 and 297-311). -/
structure SearchParams where
  searchQueryString : Option String
  searchByName : Option String
  searchByUrl : Option String
  searchByDescription : Option String
  searchByTextContent : Option String
  searchByTags : Option String
  collectionId : Option String
  tagId : Option String
  sort : String
  cursor : String
deriving DecidableEq, Repr

/-- Build the parameters for one filter combination: the five `searchBy*`
toggles and `searchQueryString` are set only when `query` is truthy;
`collectionId`/`tagId` only when the combination's value is truthy;
`sort='createdAt'`, `cursor='0'` always. -/
def buildParams (query : String) (c t : Option String) : SearchParams :=
  let flag : Option String := if query = "" then none else some "true"
  { searchQueryString := if query = "" then none else some query,
    searchByName := flag, searchByUrl := flag, searchByDescription := flag,
    searchByTextContent := flag, searchByTags := flag,
    collectionId := truthyStr c, tagId := truthyStr t,
    sort := "createdAt", cursor := "0" }

/-- `search_combinations` (linkwarden_api.py:243-257): full cartesian product
when both id lists are non-empty, else one combination per element of the
non-empty list with the other filter unset. -/
def searchCombos (cids tids : List String) :
    List (Option String × Option String) :=
  if cids ≠ [] ∧ tids ≠ [] then
    cids.flatMap (fun c => tids.map (fun t => (some c, some t)))
  else if cids ≠ [] then
    cids.map (fun c => (some c, none))
  else
    tids.map (fun t => (none, some t))

/-- The de-duplicating accumulation loop over one response's links
(linkwarden_api.py:287-291): a link is appended iff its id is truthy and not
yet in `seen_links`, which then records it. -/
def addLinks : List Int → List Link → List Link → List Int × List Link
  | seen, acc, [] => (seen, acc)
  | seen, acc, l :: ls =>
      match truthyId l with
      | some n =>
          if n ∈ seen then addLinks seen acc ls
          else addLinks (n :: seen) (acc ++ [l]) ls
      | none => addLinks seen acc ls

/-- The `for combo in search_combinations` loop (linkwarden_api.py:260-293),
also accumulating the list of issued requests.  A `raised` failure is caught
by `except Exception: continue`; an `exited` failure (Alfred mode,
`SystemExit`) is not caught and aborts everything. -/
def searchLoop (fetch : SearchParams → Except ReqFailure (List Link))
    (query : String) :
    List (Option String × Option String) → List Int → List Link →
    List SearchParams → Except ReqFailure (List Link × List SearchParams)
  | [], _, acc, calls => Except.ok (acc, calls)
  | c :: cs, seen, acc, calls =>
      let p := buildParams query c.1 c.2
      match fetch p with
      | Except.error ReqFailure.exited => Except.error ReqFailure.exited
      | Except.error ReqFailure.raised =>
          searchLoop fetch query cs seen acc (calls ++ [p])
      | Except.ok links =>
          let sa := addLinks seen acc links
          searchLoop fetch query cs sa.1 sa.2 (calls ++ [p])

/-- `LinkwardenAPI.search_links` (linkwarden_api.py:218-316), parameterised by
the remote call `fetch` and returning the result list together with the
requests issued.  The backward-compatibility singletons `collection_id` /
`tag_id` are appended when truthy; duplicates are removed with `list(set(…))`
(whose iteration order Python leaves unspecified; `List.dedup` fixes one
order, which none of the proved properties depend on).  With at least one
filter the combination loop runs (individual `raised` failures skipped); with
no filters a single unguarded request is made, whose failure propagates. -/
def search_links (fetch : SearchParams → Except ReqFailure (List Link))
    (query : String) (collection_ids tag_ids : List String)
    (collection_id tag_id : Option String) (limit : Nat) :
    Except ReqFailure (List Link × List SearchParams) :=
  let cids := (collection_ids ++ (truthyStr collection_id).toList).dedup
  let tids := (tag_ids ++ (truthyStr tag_id).toList).dedup
  if cids ≠ [] ∨ tids ≠ [] then
    match searchLoop fetch query (searchCombos cids tids) [] [] [] with
    | Except.error e => Except.error e
    | Except.ok (links, calls) => Except.ok (links.take limit, calls)
  else
    let p := buildParams query none none
    match fetch p with
    | Except.error e => Except.error e
    | Except.ok links => Except.ok (links.take limit, [p])

/-- The links one combination contributes to the aggregation: its response's
array on success, nothing when its request failed (it is skipped). -/
def fetchResponse (fetch : SearchParams → Except ReqFailure (List Link))
    (query : String) (c : Option String × Option String) : List Link :=
  match fetch (buildParams query c.1 c.2) with
  | Except.ok ls => ls
  | Except.error _ => []

/-- All links returned across a list of combinations, in request order. -/
def fetchedLinks (fetch : SearchParams → Except ReqFailure (List Link))
    (query : String) (combos : List (Option String × Option String)) :
    List Link :=
  (combos.map (fetchResponse fetch query)).flatten

/-- Merging a flat sequence of links keeping only the first occurrence of
each truthy link id (the empty-accumulator instance of `addLinks`). -/
def mergeUnique (ls : List Link) : List Link :=
  (addLinks [] [] ls).2

/-- The combinations generated by `search_links` after de-duplicating the two
id lists. -/
def dedupCombos (cids tids : List String) :
    List (Option String × Option String) :=
  searchCombos cids.dedup tids.dedup

/-- The requests `search_links` issues on the filtered path. -/
def issuedCalls (query : String)
    (combos : List (Option String × Option String)) : List SearchParams :=
  combos.map (fun c => buildParams query c.1 c.2)

/-- The merged (pre-truncation) aggregate of a filtered search. -/
def aggMerged (fetch : SearchParams → Except ReqFailure (List Link))
    (query : String) (cids tids : List String) : List Link :=
  mergeUnique (fetchedLinks fetch query (dedupCombos cids tids))

/-- The truthy link ids occurring in a list of links, in order. -/
def idsOf (ls : List Link) : List Int :=
  ls.filterMap truthyId

/-- Fold `addLinks` over per-combination response chunks (what the
combination loop does response by response). -/
def addLinksChunks : List Int → List Link → List (List Link) →
    List Int × List Link
  | seen, acc, [] => (seen, acc)
  | seen, acc, ls :: rest =>
      addLinksChunks (addLinks seen acc ls).1 (addLinks seen acc ls).2 rest

/-! ## Two-phase link creation (`LinkwardenAPI.create_link`) -/

/-- A tag object inside a link record (`{'id': …, 'name': …}` or name-only). -/
structure TagObj where
  id : Option Int
  name : String
deriving DecidableEq, Repr

/-- A collection object inside a link record. -/
structure CollectionObj where
  id : Option Int
  name : String
  ownerId : Option Int
deriving DecidableEq, Repr

/-- The link record under a response's `'response'` key.  Fields read with
`.get(…)` are `Option`s; `tags` defaults to `[]` and `collection` to `{}`
exactly as the `.get(…, default)` calls do. -/
structure LinkRecord where
  id : Option Int
  url : Option String
  name : Option String
  description : Option String
  tags : List TagObj
  collection : Option CollectionObj
deriving DecidableEq, Repr

/-- A `_make_request` JSON result as `create_link` inspects it:
`ok r` when `result and 'response' in result` holds (with `r` the record
under `'response'`), `bad` otherwise. -/
inductive ApiResult where
  | ok (response : LinkRecord) : ApiResult
  | bad : ApiResult
deriving DecidableEq, Repr

/-- The full-record `PUT` body built in step 2 (linkwarden_api.py:541-554):
republishes the created link's fields plus the intended collection id and the
owning identity (`saved_collection.get('ownerId', 1)`). -/
structure UpdateData where
  id : Option Int
  url : Option String
  name : Option String
  description : String
  tags : List TagObj
  collectionId : Int
  collection : CollectionObj
  ownerId : Int
deriving DecidableEq, Repr

/-- Build the `update_data` dict of linkwarden_api.py:541-554 from the
phase-1 response. -/
def mkUpdateData (intended : Int) (collName : String) (saved : LinkRecord) :
    UpdateData :=
  let owner : Int := ((saved.collection.bind (fun c => c.ownerId)).getD 1)
  { id := saved.id, url := saved.url, name := saved.name,
    description := saved.description.getD "",
    tags := saved.tags,
    collectionId := intended,
    collection := { id := some intended, name := collName,
                    ownerId := some owner },
    ownerId := owner }

/-- `updated_result['response'].get('collection', {}).get('id')`
(linkwarden_api.py:561). -/
def finalCollectionId (r : LinkRecord) : Option Int :=
  r.collection.bind (fun c => c.id)

/-- The branch `create_link` takes after phase 1 succeeded or failed; each
constructor corresponds to one `print(…, file=sys.stderr)` diagnostic. -/
inductive SaveSignal where
  /-- "Collection assignment successful" (linkwarden_api.py:563). -/
  | assigned : SaveSignal
  /-- "Collection update didn't stick, still in collection …"
  (linkwarden_api.py:566). -/
  | mismatch : SaveSignal
  /-- "Update response unexpected, returning original result"
  (linkwarden_api.py:569). -/
  | updateBadResponse : SaveSignal
  /-- "Collection update failed: …" (linkwarden_api.py:573). -/
  | updateFailed : SaveSignal
  /-- "Link creation failed" (linkwarden_api.py:577). -/
  | createFailed : SaveSignal
deriving DecidableEq, Repr

/-- The two-step save of `create_link` (linkwarden_api.py:516-578), entered
when a target collection id was resolved (`collection_name and
data.get('collectionId')`).  `post` is the phase-1
`POST /links` (collection omitted); `put` is the phase-2
`PUT /links/{id}` on the update data; failures of either remote call are the
exceptions `_make_request` raises in save-action mode.  The `POST` is not
guarded by a `try`, so its exception propagates; the `PUT` is guarded
(linkwarden_api.py:556-575). Returns the taken branch and the dict
`create_link` returns to its caller. -/
def create_link_two_phase (intended : Int) (collName : String)
    (post : Except Unit ApiResult)
    (put : UpdateData → Except Unit ApiResult) :
    Except Unit (SaveSignal × ApiResult) :=
  match post with
  | Except.error e => Except.error e
  | Except.ok result =>
      match result with
      | ApiResult.bad => Except.ok (SaveSignal.createFailed, result)
      | ApiResult.ok saved =>
          let upd := mkUpdateData intended collName saved
          match put upd with
          | Except.error _ => Except.ok (SaveSignal.updateFailed, result)
          | Except.ok updatedResult =>
              match updatedResult with
              | ApiResult.bad =>
                  Except.ok (SaveSignal.updateBadResponse, result)
              | ApiResult.ok updLink =>
                  if finalCollectionId updLink = some intended then
                    Except.ok (SaveSignal.assigned, updatedResult)
                  else
                    Except.ok (SaveSignal.mismatch, result)

end LinkwardenAPI

/-! ## Concrete fixtures used by the witnesses -/

/-- A one-file cache directory whose single file is unparseable. -/
def CacheManager.corruptState : CacheManager.CacheState :=
  ⟨[("bad", CacheManager.FileContent.corrupt)], 0, 0, 0, 0, 0⟩

/-- A three-file cache directory: one entry live at time 5, one expired at
time 5, and one corrupted file. -/
def CacheManager.mixedState : CacheManager.CacheState :=
  ⟨[("a", CacheManager.FileContent.entry (JVal.str "x") (some 10)),
    ("b", CacheManager.FileContent.entry (JVal.str "y") (some 1)),
    ("c", CacheManager.FileContent.corrupt)], 0, 0, 0, 0, 0⟩

/-- A remote that answers every search request with the same two links. -/
def LinkwardenAPI.fetchTwoLinks :
    LinkwardenAPI.SearchParams →
    Except LinkwardenAPI.ReqFailure (List LinkwardenAPI.Link) :=
  fun _ => Except.ok [⟨some 1, "first"⟩, ⟨some 2, "second"⟩]

/-- A remote for which every combination filtering on tag id `"X"` raises an
exception and every other combination returns one link. -/
def LinkwardenAPI.fetchTagXRaises :
    LinkwardenAPI.SearchParams →
    Except LinkwardenAPI.ReqFailure (List LinkwardenAPI.Link) :=
  fun p =>
    if p.tagId = some "X" then Except.error LinkwardenAPI.ReqFailure.raised
    else Except.ok [⟨some 1, "kept"⟩]

/-- A phase-1 creation response: link 42, auto-filed under the default
collection 1. -/
def LinkwardenAPI.savedLink0 : LinkwardenAPI.LinkRecord :=
  ⟨some 42, some "https://example.com", some "Example", some "", [],
   some ⟨some 1, "Unorganized", some 1⟩⟩

/-- A phase-2 update response whose resulting collection is 7, not the
intended 5. -/
def LinkwardenAPI.updLinkWrongColl : LinkwardenAPI.LinkRecord :=
  ⟨some 42, some "https://example.com", some "Example", some "", [],
   some ⟨some 7, "Other", some 1⟩⟩

/-! ## Cache lemmas -/

namespace CacheManager

theorem lookupFC_filter_ne_self (files : List (String × FileContent))
    (k : String) :
    lookupFC (files.filter fun a => !decide (a.1 = k)) k = none := by
  induction files with
  | nil => rfl
  | cons p rest ih =>
      by_cases h : p.1 = k <;> simp [List.filter_cons, h, lookupFC, ih]

/-- C5: for every key, every cacheable value and every positive TTL,
`set(k, v, ttl)` followed by `get(k)` at any time not later than
`set`-time + ttl (in particular immediately) returns `(v, true)`. -/
theorem set_then_get_hit (s : CacheState) (t0 t1 : Int) (key : String)
    (v : JVal) (ttl : Int) (_httl : 0 < ttl) (hbefore : t1 ≤ t0 + ttl) :
    (get (set s t0 key v ttl).2 t1 key).1 = some v ∧
    (get (set s t0 key v ttl).2 t1 key).2.1 = true := by
  have hexp : isExpiredAt t1 (some (t0 + ttl)) = false := by
    simp only [isExpiredAt, decide_eq_false_iff_not, not_lt]
    omega
  simp [get, set, lookupFC, hexp]

/-- C5 witness: the spec scenario `set("tags", [{"name":"x"}], ttl=2)`
followed immediately by `get("tags")` is a hit returning the value. -/
theorem set_then_get_hit_witness :
    (get (set CacheState.empty 0 "tags"
        (JVal.arr [JVal.obj [("name", JVal.str "x")]]) 2).2 0 "tags").1
      = some (JVal.arr [JVal.obj [("name", JVal.str "x")]]) ∧
    (get (set CacheState.empty 0 "tags"
        (JVal.arr [JVal.obj [("name", JVal.str "x")]]) 2).2 0 "tags").2.1
      = true :=
  set_then_get_hit CacheState.empty 0 0 "tags"
    (JVal.arr [JVal.obj [("name", JVal.str "x")]]) 2 (by decide) (by decide)

/-- C6: once the TTL has elapsed (strictly after `set`-time + ttl, matching
`time.time() > expires_at`), `get(k)` returns `(_, false)` and the entry's
underlying storage unit is removed by that `get`. -/
theorem set_then_get_after_ttl (s : CacheState) (t0 t1 : Int) (key : String)
    (v : JVal) (ttl : Int) (helapsed : t0 + ttl < t1) :
    (get (set s t0 key v ttl).2 t1 key).1 = none ∧
    (get (set s t0 key v ttl).2 t1 key).2.1 = false ∧
    lookupFC ((get (set s t0 key v ttl).2 t1 key).2.2).files
      (sanitizeKey key) = none := by
  have hexp : isExpiredAt t1 (some (t0 + ttl)) = true := by
    simp only [isExpiredAt, decide_eq_true_eq]
    omega
  refine ⟨?_, ?_, ?_⟩ <;>
    simp [get, set, lookupFC, hexp, eraseKey, List.filter_cons,
      lookupFC_filter_ne_self]

/-- C6 witness: the spec scenario with `ttl = 2`, read back at time 3:
a miss, and the storage entry is gone. -/
theorem set_then_get_after_ttl_witness :
    (get (set CacheState.empty 0 "tags"
        (JVal.arr [JVal.obj [("name", JVal.str "x")]]) 2).2 3 "tags").1
      = none ∧
    (get (set CacheState.empty 0 "tags"
        (JVal.arr [JVal.obj [("name", JVal.str "x")]]) 2).2 3 "tags").2.1
      = false ∧
    lookupFC ((get (set CacheState.empty 0 "tags"
        (JVal.arr [JVal.obj [("name", JVal.str "x")]]) 2).2 3 "tags").2.2).files
      (sanitizeKey "tags") = none :=
  set_then_get_after_ttl CacheState.empty 0 3 "tags"
    (JVal.arr [JVal.obj [("name", JVal.str "x")]]) 2 (by decide)

/-- C7: `get` is a total function of the state (it never raises), a `get` on
a nonexistent key returns `(_, false)` incrementing `misses` and leaving
`errors` unchanged, and a `get` on a corrupted (unparseable) entry returns
`(_, false)` incrementing `errors` (and `misses`). -/
theorem get_failure_accounting (s : CacheState) (now : Int) (key : String) :
    (lookupFC s.files (sanitizeKey key) = none →
      (get s now key).1 = none ∧ (get s now key).2.1 = false ∧
      (get s now key).2.2.misses = s.misses + 1 ∧
      (get s now key).2.2.errors = s.errors) ∧
    (lookupFC s.files (sanitizeKey key) = some FileContent.corrupt →
      (get s now key).1 = none ∧ (get s now key).2.1 = false ∧
      (get s now key).2.2.errors = s.errors + 1 ∧
      (get s now key).2.2.misses = s.misses + 1) := by
  constructor <;> intro h <;> simp [get, h]

/-- C7 witness: a `get` on an empty cache misses without an error; a `get`
on a corrupted file errors. -/
theorem get_failure_accounting_witness :
    ((get CacheState.empty 0 "missing").1 = none ∧
     (get CacheState.empty 0 "missing").2.1 = false ∧
     (get CacheState.empty 0 "missing").2.2.misses =
       CacheState.empty.misses + 1 ∧
     (get CacheState.empty 0 "missing").2.2.errors = CacheState.empty.errors) ∧
    ((get corruptState 0 "bad").1 = none ∧
     (get corruptState 0 "bad").2.1 = false ∧
     (get corruptState 0 "bad").2.2.errors = corruptState.errors + 1 ∧
     (get corruptState 0 "bad").2.2.misses = corruptState.misses + 1) :=
  ⟨(get_failure_accounting CacheState.empty 0 "missing").1 rfl,
   (get_failure_accounting corruptState 0 "bad").2 rfl⟩

/-- C8: `cleanup_expired` keeps every valid entry whose `expires_at` has not
passed, removes every entry whose `expires_at` has passed and every
unparseable (corrupted) file, touches nothing else (the kept directory is a
sublist of the original), and the returned count plus the kept count equals
the original number of files. -/
theorem cleanup_expired_correct (s : CacheState) (now : Int) :
    ((cleanup_expired s now).2.files).Sublist s.files ∧
    (∀ k v ea, (k, FileContent.entry v (some ea)) ∈ s.files → now ≤ ea →
      (k, FileContent.entry v (some ea)) ∈ (cleanup_expired s now).2.files) ∧
    (∀ k v ea, (k, FileContent.entry v (some ea)) ∈ s.files → ea < now →
      (k, FileContent.entry v (some ea)) ∉ (cleanup_expired s now).2.files) ∧
    (∀ k, (k, FileContent.corrupt) ∈ s.files →
      (k, FileContent.corrupt) ∉ (cleanup_expired s now).2.files) ∧
    (cleanup_expired s now).1 + ((cleanup_expired s now).2.files).length =
      s.files.length := by
  refine ⟨List.filter_sublist _, fun k v ea hmem hlive => ?_,
    fun k v ea hmem hexp => ?_, fun k hmem => ?_, ?_⟩
  · refine List.mem_filter.mpr ⟨hmem, ?_⟩
    simp only [removableAt, isExpiredAt, Bool.not_eq_true',
      decide_eq_false_iff_not, not_lt]
    exact hlive
  · intro hkept
    have h2 := (List.mem_filter.mp hkept).2
    simp only [removableAt, isExpiredAt, Bool.not_eq_true',
      decide_eq_false_iff_not, not_lt] at h2
    omega
  · intro hkept
    have h2 := (List.mem_filter.mp hkept).2
    simp [removableAt] at h2
  · exact (@List.length_eq_length_filter_add _ s.files
      (fun p => removableAt now p.2)).symm

/-- C8 witness: at time 5 over one live entry (expires 10), one expired
entry (expired at 1) and one corrupted file, cleanup keeps exactly the live
entry and reports a removal count consistent with the directory sizes. -/
theorem cleanup_expired_correct_witness :
    (("a", FileContent.entry (JVal.str "x") (some 10))
        ∈ (cleanup_expired mixedState 5).2.files) ∧
    (("b", FileContent.entry (JVal.str "y") (some 1))
        ∉ (cleanup_expired mixedState 5).2.files) ∧
    (("c", FileContent.corrupt) ∉ (cleanup_expired mixedState 5).2.files) ∧
    (cleanup_expired mixedState 5).1 +
        ((cleanup_expired mixedState 5).2.files).length =
      mixedState.files.length :=
  ⟨(cleanup_expired_correct mixedState 5).2.1 "a" (JVal.str "x") 10
      (by simp [mixedState]) (by decide),
   (cleanup_expired_correct mixedState 5).2.2.1 "b" (JVal.str "y") 1
      (by simp [mixedState]) (by decide),
   (cleanup_expired_correct mixedState 5).2.2.2.1 "c"
      (by simp [mixedState]),
   (cleanup_expired_correct mixedState 5).2.2.2.2⟩

/-- C10: two logical keys whose sanitized forms coincide (dropping every
character that is not alphanumeric, `_`, `-` or `.`) address the same cache
entry: a `set` under one key is a hit under the other, a second `set` under
the other key overwrites the stored entry, and every key made only of
dropped characters sanitizes to the single empty file name. -/
theorem sanitize_key_aliasing (s : CacheState) (now : Int) (k1 k2 : String)
    (v v2 : JVal) (ttl : Int) (hk : sanitizeKey k1 = sanitizeKey k2)
    (httl : 0 < ttl) :
    ((get (set s now k1 v ttl).2 now k2).1 = some v ∧
     (get (set s now k1 v ttl).2 now k2).2.1 = true) ∧
    lookupFC ((set (set s now k1 v ttl).2 now k2 v2 ttl).2.files)
        (sanitizeKey k1)
      = some (FileContent.entry v2 (some (now + ttl))) ∧
    (∀ k : String, (∀ c ∈ k.data, keepChar c = false) →
      sanitizeKey k = "") := by
  have hexp : isExpiredAt now (some (now + ttl)) = false := by
    simp only [isExpiredAt, decide_eq_false_iff_not, not_lt]
    omega
  refine ⟨?_, ?_, fun k hdrop => ?_⟩
  · constructor <;> simp [get, set, lookupFC, hk, hexp]
  · simp [set, lookupFC, hk]
  · have : k.data.filter keepChar = [] :=
      List.filter_eq_nil_iff.mpr (by simpa using hdrop)
    simp [sanitizeKey, this]

/-- C10 witness: `"a/b"` and `"a b!"` both sanitize to `"ab"`, so a value
stored under the first is returned for the second and overwritten through
the second; `"/!"` sanitizes to the empty name. -/
theorem sanitize_key_aliasing_witness :
    ((get (set CacheState.empty 0 "a/b" (JVal.str "v") 5).2 0 "a b!").1
        = some (JVal.str "v") ∧
     (get (set CacheState.empty 0 "a/b" (JVal.str "v") 5).2 0 "a b!").2.1
        = true) ∧
    lookupFC ((set (set CacheState.empty 0 "a/b" (JVal.str "v") 5).2
        0 "a b!" (JVal.str "w") 5).2.files) (sanitizeKey "a/b")
      = some (FileContent.entry (JVal.str "w") (some (0 + 5))) ∧
    (∀ k : String, (∀ c ∈ k.data, keepChar c = false) →
      sanitizeKey k = "") :=
  sanitize_key_aliasing CacheState.empty 0 "a/b" "a b!" (JVal.str "v")
    (JVal.str "w") 5 (by decide) (by decide)

end CacheManager

/-! ## TTL configuration theorems -/

namespace LinkwardenAPI

/-- C9: each of the three TTL overrides clamps a configured value below 30 to
exactly 30, a value above 86400 to exactly 86400, and passes a value within
the bounds through unchanged. -/
theorem ttl_env_clamping (v : Int) :
    (v < 30 →
      cacheTtlCollections (some v) = 30 ∧ cacheTtlTags (some v) = 30 ∧
      cacheTtlSearch (some v) = 30) ∧
    (86400 < v →
      cacheTtlCollections (some v) = 86400 ∧ cacheTtlTags (some v) = 86400 ∧
      cacheTtlSearch (some v) = 86400) ∧
    (30 ≤ v → v ≤ 86400 →
      cacheTtlCollections (some v) = v ∧ cacheTtlTags (some v) = v ∧
      cacheTtlSearch (some v) = v) := by
  refine ⟨fun h => ?_, fun h => ?_, fun h1 h2 => ?_⟩ <;>
    simp only [cacheTtlCollections, cacheTtlTags, cacheTtlSearch,
      getTtlFromEnv] <;>
    split_ifs <;> omega

/-- C9 witness: 10 is clamped up to 30, 100000 down to 86400, and 600 is
used unchanged, for all three overrides. -/
theorem ttl_env_clamping_witness :
    (cacheTtlCollections (some 10) = 30 ∧ cacheTtlTags (some 10) = 30 ∧
      cacheTtlSearch (some 10) = 30) ∧
    (cacheTtlCollections (some 100000) = 86400 ∧
      cacheTtlTags (some 100000) = 86400 ∧
      cacheTtlSearch (some 100000) = 86400) ∧
    (cacheTtlCollections (some 600) = 600 ∧ cacheTtlTags (some 600) = 600 ∧
      cacheTtlSearch (some 600) = 600) :=
  ⟨(ttl_env_clamping 10).1 (by decide),
   (ttl_env_clamping 100000).2.1 (by decide),
   (ttl_env_clamping 600).2.2 (by decide) (by decide)⟩

/-- C4: the cache keys of `get_collections` and `get_tags` are NOT a
function of (endpoint, base URL, credential) alone: they also depend on the
process's string-hash function (Python salts `hash` per process via
`PYTHONHASHSEED`), so two runs configured identically can derive different
keys.  Exhibited by two possible per-process hash functions. -/
theorem cache_key_process_dependent :
    collectionsCacheKey (fun _ => 0) "https://lw.example.com" "token-A"
      ≠ collectionsCacheKey (fun _ => 1) "https://lw.example.com" "token-A" ∧
    tagsCacheKey (fun _ => 0) "https://lw.example.com" "token-A"
      ≠ tagsCacheKey (fun _ => 1) "https://lw.example.com" "token-A" := by
  constructor <;> decide

/-- C1: when phase 1 created the link and the phase-2 `PUT` succeeds but
reports a collection id different from the intended one, `create_link`
returns the phase-1 creation response — not the update response — tagged
with the mismatch branch rather than the success branch. -/
theorem create_link_mismatch_returns_phase1 (intended : Int)
    (collName : String) (saved updLink : LinkRecord)
    (put : UpdateData → Except Unit ApiResult)
    (hput : put (mkUpdateData intended collName saved) =
      Except.ok (ApiResult.ok updLink))
    (hmis : finalCollectionId updLink ≠ some intended) :
    create_link_two_phase intended collName (Except.ok (ApiResult.ok saved))
      put = Except.ok (SaveSignal.mismatch, ApiResult.ok saved) := by
  simp [create_link_two_phase, hput, hmis]

/-- C1 witness: intended collection 5, update response reporting collection
7: the phase-1 response is returned with the mismatch signal. -/
theorem create_link_mismatch_returns_phase1_witness :
    create_link_two_phase 5 "Work" (Except.ok (ApiResult.ok savedLink0))
      (fun _ => Except.ok (ApiResult.ok updLinkWrongColl))
      = Except.ok (SaveSignal.mismatch, ApiResult.ok savedLink0) :=
  create_link_mismatch_returns_phase1 5 "Work" savedLink0 updLinkWrongColl
    (fun _ => Except.ok (ApiResult.ok updLinkWrongColl)) rfl (by decide)

/-! ## Search aggregation lemmas -/

theorem addLinks_append (xs ys : List Link) : ∀ (seen : List Int)
    (acc : List Link),
    addLinks seen acc (xs ++ ys) =
      addLinks (addLinks seen acc xs).1 (addLinks seen acc xs).2 ys := by
  induction xs with
  | nil => intro seen acc; rfl
  | cons l ls ih =>
      intro seen acc
      cases h : truthyId l with
      | none => simpa [addLinks, h] using ih _ _
      | some n => by_cases hn : n ∈ seen <;> simp [addLinks, h, hn, ih]

theorem addLinksChunks_eq_flatten : ∀ (chunks : List (List Link))
    (seen : List Int) (acc : List Link),
    addLinksChunks seen acc chunks = addLinks seen acc chunks.flatten := by
  intro chunks
  induction chunks with
  | nil => intro seen acc; rfl
  | cons ls rest ih =>
      intro seen acc
      simp [addLinksChunks, addLinks_append, ih]

theorem addLinks_ids_invariant : ∀ (ls : List Link) (seen : List Int)
    (acc : List Link),
    (∀ n ∈ idsOf acc, n ∈ seen) → (idsOf acc).Nodup →
    (idsOf (addLinks seen acc ls).2).Nodup ∧
    (∀ n ∈ idsOf (addLinks seen acc ls).2, n ∈ (addLinks seen acc ls).1) := by
  intro ls
  induction ls with
  | nil => intro seen acc hsub hnd; exact ⟨hnd, hsub⟩
  | cons l ls ih =>
      intro seen acc hsub hnd
      cases h : truthyId l with
      | none => simpa [addLinks, h] using ih seen acc hsub hnd
      | some n =>
          by_cases hn : n ∈ seen
          · simpa [addLinks, h, hn] using ih seen acc hsub hnd
          · have hids : idsOf (acc ++ [l]) = idsOf acc ++ [n] := by
              simp [idsOf, List.filterMap_append, h]
            have hsub' : ∀ m ∈ idsOf (acc ++ [l]), m ∈ n :: seen := by
              intro m hm
              rw [hids] at hm
              rcases List.mem_append.mp hm with hm1 | hm2
              · exact List.mem_cons_of_mem _ (hsub m hm1)
              · simp only [List.mem_singleton] at hm2
                simp [hm2]
            have hnd' : (idsOf (acc ++ [l])).Nodup := by
              rw [hids]
              refine List.Nodup.append hnd (List.nodup_singleton n) ?_
              intro m hm1 hm2
              simp only [List.mem_singleton] at hm2
              exact hn (hm2 ▸ hsub m hm1)
            simpa [addLinks, h, hn] using ih (n :: seen) (acc ++ [l]) hsub' hnd'

theorem addLinks_mem_seen : ∀ (ls : List Link) (seen : List Int)
    (acc : List Link) (n : Int),
    n ∈ (addLinks seen acc ls).1 ↔
      n ∈ seen ∨ ∃ l ∈ ls, truthyId l = some n := by
  intro ls
  induction ls with
  | nil => intro seen acc n; simp [addLinks]
  | cons l ls ih =>
      intro seen acc n
      cases h : truthyId l with
      | none =>
          have hstep : addLinks seen acc (l :: ls) = addLinks seen acc ls := by
            simp [addLinks, h]
          rw [hstep, ih]
          simp [h]
      | some m =>
          by_cases hn : m ∈ seen
          · have hstep : addLinks seen acc (l :: ls) = addLinks seen acc ls := by
              simp [addLinks, h, hn]
            rw [hstep, ih]
            constructor
            · rintro (hs | ⟨l', hl', ht⟩)
              · exact Or.inl hs
              · exact Or.inr ⟨l', List.mem_cons_of_mem _ hl', ht⟩
            · rintro (hs | ⟨l', hl', ht⟩)
              · exact Or.inl hs
              · rcases List.mem_cons.mp hl' with rfl | hl''
                · rw [h] at ht
                  exact Or.inl ((Option.some.inj ht) ▸ hn)
                · exact Or.inr ⟨l', hl'', ht⟩
          · have hstep : addLinks seen acc (l :: ls) =
                addLinks (m :: seen) (acc ++ [l]) ls := by
              simp [addLinks, h, hn]
            rw [hstep, ih]
            constructor
            · rintro (hms | ⟨l', hl', ht⟩)
              · rcases List.mem_cons.mp hms with heq | hs
                · exact Or.inr ⟨l, List.mem_cons_self l ls, by rw [h, heq]⟩
                · exact Or.inl hs
              · exact Or.inr ⟨l', List.mem_cons_of_mem _ hl', ht⟩
            · rintro (hs | ⟨l', hl', ht⟩)
              · exact Or.inl (List.mem_cons_of_mem _ hs)
              · rcases List.mem_cons.mp hl' with rfl | hl''
                · rw [h] at ht
                  exact Or.inl
                    (List.mem_cons.mpr (Or.inl (Option.some.inj ht).symm))
                · exact Or.inr ⟨l', hl'', ht⟩

theorem addLinks_mem_ids : ∀ (ls : List Link) (seen : List Int)
    (acc : List Link) (n : Int),
    n ∈ idsOf (addLinks seen acc ls).2 ↔
      n ∈ idsOf acc ∨ (n ∉ seen ∧ ∃ l ∈ ls, truthyId l = some n) := by
  intro ls
  induction ls with
  | nil => intro seen acc n; simp [addLinks]
  | cons l ls ih =>
      intro seen acc n
      cases h : truthyId l with
      | none =>
          have hstep : addLinks seen acc (l :: ls) = addLinks seen acc ls := by
            simp [addLinks, h]
          rw [hstep, ih]
          constructor
          · rintro (ha | ⟨hns, l', hl', ht⟩)
            · exact Or.inl ha
            · exact Or.inr ⟨hns, l', List.mem_cons_of_mem _ hl', ht⟩
          · rintro (ha | ⟨hns, l', hl', ht⟩)
            · exact Or.inl ha
            · rcases List.mem_cons.mp hl' with rfl | hl''
              · rw [h] at ht
                exact Option.noConfusion ht
              · exact Or.inr ⟨hns, l', hl'', ht⟩
      | some m =>
          by_cases hn : m ∈ seen
          · have hstep : addLinks seen acc (l :: ls) = addLinks seen acc ls := by
              simp [addLinks, h, hn]
            rw [hstep, ih]
            constructor
            · rintro (ha | ⟨hns, l', hl', ht⟩)
              · exact Or.inl ha
              · exact Or.inr ⟨hns, l', List.mem_cons_of_mem _ hl', ht⟩
            · rintro (ha | ⟨hns, l', hl', ht⟩)
              · exact Or.inl ha
              · rcases List.mem_cons.mp hl' with rfl | hl''
                · rw [h] at ht
                  exact absurd ((Option.some.inj ht) ▸ hn) hns
                · exact Or.inr ⟨hns, l', hl'', ht⟩
          · have hstep : addLinks seen acc (l :: ls) =
                addLinks (m :: seen) (acc ++ [l]) ls := by
              simp [addLinks, h, hn]
            have hids : idsOf (acc ++ [l]) = idsOf acc ++ [m] := by
              simp [idsOf, List.filterMap_append, h]
            rw [hstep, ih, hids]
            constructor
            · rintro (ha | ⟨hns, l', hl', ht⟩)
              · rcases List.mem_append.mp ha with ha1 | ha2
                · exact Or.inl ha1
                · have hm : n = m := by simpa using ha2
                  exact Or.inr ⟨hm ▸ hn, l, List.mem_cons_self l ls,
                    by rw [h, hm]⟩
              · have hns' : n ∉ seen := fun hs =>
                  hns (List.mem_cons_of_mem _ hs)
                exact Or.inr ⟨hns', l', List.mem_cons_of_mem _ hl', ht⟩
            · rintro (ha | ⟨hns, l', hl', ht⟩)
              · exact Or.inl (List.mem_append.mpr (Or.inl ha))
              · rcases List.mem_cons.mp hl' with rfl | hl''
                · rw [h] at ht
                  refine Or.inl (List.mem_append.mpr (Or.inr ?_))
                  simp [(Option.some.inj ht).symm]
                · by_cases hnm : n = m
                  · refine Or.inl (List.mem_append.mpr (Or.inr ?_))
                    simp [hnm]
                  · refine Or.inr ⟨?_, l', hl'', ht⟩
                    intro hmem
                    rcases List.mem_cons.mp hmem with heq | hs
                    · exact hnm heq
                    · exact hns hs

theorem addLinks_first_occ : ∀ (ls : List Link) (seen : List Int)
    (acc : List Link) (l' : Link),
    l' ∈ (addLinks seen acc ls).2 →
    l' ∈ acc ∨ ((∃ n, truthyId l' = some n ∧ n ∉ seen) ∧
      ls.find? (fun x => truthyId x == truthyId l') = some l') := by
  intro ls
  induction ls with
  | nil => intro seen acc l' hmem; exact Or.inl hmem
  | cons l ls ih =>
      intro seen acc l' hmem
      cases h : truthyId l with
      | none =>
          rw [show addLinks seen acc (l :: ls) = addLinks seen acc ls by
            simp [addLinks, h]] at hmem
          rcases ih seen acc l' hmem with ha | ⟨⟨n, htn, hns⟩, hfind⟩
          · exact Or.inl ha
          · refine Or.inr ⟨⟨n, htn, hns⟩, ?_⟩
            rw [List.find?_cons_of_neg _ (by simp [h, htn])]
            exact hfind
      | some m =>
          by_cases hn : m ∈ seen
          · rw [show addLinks seen acc (l :: ls) = addLinks seen acc ls by
              simp [addLinks, h, hn]] at hmem
            rcases ih seen acc l' hmem with ha | ⟨⟨n, htn, hns⟩, hfind⟩
            · exact Or.inl ha
            · refine Or.inr ⟨⟨n, htn, hns⟩, ?_⟩
              have hne : m ≠ n := fun heq => hns (heq ▸ hn)
              rw [List.find?_cons_of_neg _ (by simp [h, htn, hne])]
              exact hfind
          · rw [show addLinks seen acc (l :: ls) =
                addLinks (m :: seen) (acc ++ [l]) ls by
              simp [addLinks, h, hn]] at hmem
            rcases ih (m :: seen) (acc ++ [l]) l' hmem with
              ha | ⟨⟨n, htn, hns⟩, hfind⟩
            · rcases List.mem_append.mp ha with ha1 | ha2
              · exact Or.inl ha1
              · have hl : l' = l := by simpa using ha2
                subst hl
                refine Or.inr ⟨⟨m, h, hn⟩, ?_⟩
                rw [List.find?_cons_of_pos _ (by simp [h])]
            · have hns1 : n ∉ seen := fun hs =>
                hns (List.mem_cons_of_mem _ hs)
              have hnm : m ≠ n := fun heq =>
                hns (heq ▸ List.mem_cons_self m seen)
              refine Or.inr ⟨⟨n, htn, hns1⟩, ?_⟩
              rw [List.find?_cons_of_neg _ (by simp [h, htn, hnm])]
              exact hfind

theorem searchLoop_eq (fetch : SearchParams → Except ReqFailure (List Link))
    (query : String)
    (hnx : ∀ p, fetch p ≠ Except.error ReqFailure.exited) :
    ∀ (combos : List (Option String × Option String)) (seen : List Int)
      (acc : List Link) (calls : List SearchParams),
    searchLoop fetch query combos seen acc calls =
      Except.ok ((addLinks seen acc (fetchedLinks fetch query combos)).2,
        calls ++ combos.map (fun c => buildParams query c.1 c.2)) := by
  intro combos
  induction combos with
  | nil =>
      intro seen acc calls
      simp [searchLoop, fetchedLinks, addLinks]
  | cons c cs ih =>
      intro seen acc calls
      have hp := hnx (buildParams query c.1 c.2)
      cases hfc : fetch (buildParams query c.1 c.2) with
      | error e =>
          cases e with
          | exited => exact absurd hfc hp
          | raised =>
              have hresp : fetchResponse fetch query c = [] := by
                simp [fetchResponse, hfc]
              simp [searchLoop, hfc, fetchedLinks, hresp, ih]
      | ok links =>
          have hresp : fetchResponse fetch query c = links := by
            simp [fetchResponse, hfc]
          simp [searchLoop, hfc, fetchedLinks, hresp, ih, addLinks_append]

theorem searchCombos_eq_product (cs ts : List String) (hc : cs ≠ [])
    (ht : ts ≠ []) :
    searchCombos cs ts =
      (cs ×ˢ ts).map (fun p => (some p.1, some p.2)) := by
  rw [searchCombos, if_pos ⟨hc, ht⟩]
  show _ = (cs.product ts).map _
  rw [List.product]
  clear hc
  induction cs with
  | nil => rfl
  | cons a l ih =>
      simp only [List.flatMap_cons, List.map_append, List.map_map]
      rw [ih]
      rfl

theorem searchCombos_length (cs ts : List String) (hc : cs ≠ [])
    (ht : ts ≠ []) :
    (searchCombos cs ts).length = cs.length * ts.length := by
  rw [searchCombos_eq_product cs ts hc ht, List.length_map,
    List.length_product]

theorem searchCombos_nodup (cs ts : List String) (hc : cs ≠ [])
    (ht : ts ≠ []) (hcn : cs.Nodup) (htn : ts.Nodup) :
    (searchCombos cs ts).Nodup := by
  rw [searchCombos_eq_product cs ts hc ht]
  refine (hcn.product htn).map ?_
  intro p q hpq
  cases p; cases q
  simpa [Prod.ext_iff] using hpq

theorem searchCombos_mem (cs ts : List String) (hc : cs ≠ [])
    (ht : ts ≠ []) (c t : String) :
    (some c, some t) ∈ searchCombos cs ts ↔ c ∈ cs ∧ t ∈ ts := by
  rw [searchCombos_eq_product cs ts hc ht]
  constructor
  · intro hmem
    rcases List.mem_map.mp hmem with ⟨⟨a, b⟩, hab, heq⟩
    have ha : a = c ∧ b = t := by simpa [Prod.ext_iff] using heq
    exact ha.1 ▸ ha.2 ▸ List.mem_product.mp hab
  · intro ⟨hcc, htt⟩
    exact List.mem_map.mpr ⟨(c, t), List.mem_product.mpr ⟨hcc, htt⟩, rfl⟩

theorem mergeUnique_ids_nodup (ls : List Link) :
    (idsOf (mergeUnique ls)).Nodup :=
  (addLinks_ids_invariant ls [] [] (by simp [idsOf]) (by simp [idsOf])).1

theorem mergeUnique_first_occ (ls : List Link) (l' : Link)
    (hmem : l' ∈ mergeUnique ls) :
    ls.find? (fun x => truthyId x == truthyId l') = some l' := by
  rcases addLinks_first_occ ls [] [] l' hmem with ha | ⟨_, hfind⟩
  · exact absurd ha (List.not_mem_nil l')
  · exact hfind

theorem mergeUnique_represents (ls : List Link) (l : Link) (hl : l ∈ ls)
    (n : Int) (htn : truthyId l = some n) :
    ∃ l2 ∈ mergeUnique ls, truthyId l2 = some n := by
  have hn : n ∈ idsOf (mergeUnique ls) :=
    (addLinks_mem_ids ls [] [] n).mpr
      (Or.inr ⟨by simp, l, hl, htn⟩)
  rcases List.mem_filterMap.mp hn with ⟨l2, hl2, ht2⟩
  exact ⟨l2, hl2, ht2⟩

theorem search_links_filtered_eq
    (fetch : SearchParams → Except ReqFailure (List Link)) (query : String)
    (cIds tIds : List String) (limit : Nat)
    (hne : cIds.dedup ≠ [] ∨ tIds.dedup ≠ [])
    (hnx : ∀ p, fetch p ≠ Except.error ReqFailure.exited) :
    search_links fetch query cIds tIds none none limit =
      Except.ok ((aggMerged fetch query cIds tIds).take limit,
        issuedCalls query (dedupCombos cIds tIds)) := by
  simp only [search_links, truthyStr, Option.toList, List.append_nil]
  rw [if_pos hne, searchLoop_eq fetch query hnx]
  simp only [List.nil_append]
  rfl

/-- C2: when both id sets are non-empty and every request succeeds,
`search_links` issues exactly one underlying call per element of the
cartesian product of the two (de-duplicated) sets — the issued requests are
the image of a duplicate-free list of combinations covering exactly the
product, of length `|collections| * |tags|` — merges the returned links
keeping only the first occurrence of each truthy link id (ids in the merge
are duplicate-free, each merged link is the first response link bearing its
id, and every returned link with an id is represented), and truncates the
merged sequence to `limit`. -/
theorem search_links_cartesian_product
    (fetch : SearchParams → Except ReqFailure (List Link)) (query : String)
    (cIds tIds : List String) (limit : Nat)
    (hc : cIds ≠ []) (ht : tIds ≠ [])
    (hok : ∀ p, ∃ ls, fetch p = Except.ok ls) :
    search_links fetch query cIds tIds none none limit =
      Except.ok ((aggMerged fetch query cIds tIds).take limit,
        issuedCalls query (dedupCombos cIds tIds)) ∧
    issuedCalls query (dedupCombos cIds tIds) =
      (dedupCombos cIds tIds).map (fun c => buildParams query c.1 c.2) ∧
    (dedupCombos cIds tIds).Nodup ∧
    (∀ c t, (some c, some t) ∈ dedupCombos cIds tIds ↔
      (c ∈ cIds ∧ t ∈ tIds)) ∧
    (issuedCalls query (dedupCombos cIds tIds)).length =
      cIds.dedup.length * tIds.dedup.length ∧
    ((aggMerged fetch query cIds tIds).take limit).length ≤ limit ∧
    (idsOf (aggMerged fetch query cIds tIds)).Nodup ∧
    (∀ l ∈ aggMerged fetch query cIds tIds,
      (fetchedLinks fetch query (dedupCombos cIds tIds)).find?
        (fun x => truthyId x == truthyId l) = some l) ∧
    (∀ l ∈ fetchedLinks fetch query (dedupCombos cIds tIds), ∀ n : Int,
      truthyId l = some n →
      ∃ l2 ∈ aggMerged fetch query cIds tIds, truthyId l2 = some n) := by
  have hnx : ∀ p, fetch p ≠ Except.error ReqFailure.exited := by
    intro p hfe
    rcases hok p with ⟨ls, hl⟩
    rw [hl] at hfe
    exact Except.noConfusion hfe
  have hcne : cIds.dedup ≠ [] := fun h =>
    hc ((List.dedup_eq_nil cIds).mp h)
  have htne : tIds.dedup ≠ [] := fun h =>
    ht ((List.dedup_eq_nil tIds).mp h)
  refine ⟨search_links_filtered_eq fetch query cIds tIds limit
      (Or.inl hcne) hnx, rfl,
    searchCombos_nodup _ _ hcne htne (cIds.nodup_dedup) (tIds.nodup_dedup),
    fun c t => ?_, ?_, List.length_take_le _ _,
    mergeUnique_ids_nodup _,
    fun l hl => mergeUnique_first_occ _ l hl,
    fun l hl n htn => mergeUnique_represents _ l hl n htn⟩
  · rw [dedupCombos, searchCombos_mem _ _ hcne htne, List.mem_dedup,
      List.mem_dedup]
  · rw [issuedCalls, List.length_map, dedupCombos,
      searchCombos_length _ _ hcne htne]

/-- C2 witness: collections `{A,B}` and tags `{X,Y}` against a remote that
returns the same two links for every combination: four underlying calls are
issued and the merged result keeps each link once. -/
theorem search_links_cartesian_product_witness :
    (issuedCalls "q" (dedupCombos ["A", "B"] ["X", "Y"])).length =
      (["A", "B"] : List String).dedup.length *
        (["X", "Y"] : List String).dedup.length ∧
    (idsOf (aggMerged fetchTwoLinks "q" ["A", "B"] ["X", "Y"])).Nodup :=
  ⟨(search_links_cartesian_product fetchTwoLinks "q" ["A", "B"] ["X", "Y"]
      20 (by decide) (by decide) (fun p => ⟨_, rfl⟩)).2.2.2.2.1,
   (search_links_cartesian_product fetchTwoLinks "q" ["A", "B"] ["X", "Y"]
      20 (by decide) (by decide) (fun p => ⟨_, rfl⟩)).2.2.2.2.2.2.1⟩

/-- C3 counterexample: with no collection and no tag filter, the single
no-filter request is NOT guarded by the fail-soft `try/except`: its failure
aborts the whole search instead of being skipped (the claim asserts the
no-filter combination's failure is skipped too). -/
theorem search_links_nofilter_failure_aborts :
    search_links (fun _ => Except.error ReqFailure.raised) "" [] [] none none
        20
      = Except.error ReqFailure.raised := rfl

/-- C3 (amended): for every generated filtered combination, failure of that
combination's underlying call by a raised exception is skipped (the search
still completes, aggregating exactly the successful combinations'
responses) and every link with a truthy id returned by any other combination
still appears in the merged output; the single no-filter combination
generated when both sets are empty is not guarded, so its failure aborts
the search. -/
theorem search_links_failsoft_filtered
    (fetch : SearchParams → Except ReqFailure (List Link)) (query : String)
    (cIds tIds : List String) (limit : Nat)
    (hne : cIds ≠ [] ∨ tIds ≠ [])
    (hnx : ∀ p, fetch p ≠ Except.error ReqFailure.exited) :
    search_links fetch query cIds tIds none none limit =
      Except.ok ((aggMerged fetch query cIds tIds).take limit,
        issuedCalls query (dedupCombos cIds tIds)) ∧
    (∀ c ∈ dedupCombos cIds tIds, ∀ l ∈ fetchResponse fetch query c,
      ∀ n : Int, truthyId l = some n →
      ∃ l2 ∈ aggMerged fetch query cIds tIds, truthyId l2 = some n) := by
  have hne' : cIds.dedup ≠ [] ∨ tIds.dedup ≠ [] := by
    rcases hne with h | h
    · exact Or.inl (fun hd => h ((List.dedup_eq_nil cIds).mp hd))
    · exact Or.inr (fun hd => h ((List.dedup_eq_nil tIds).mp hd))
  refine ⟨search_links_filtered_eq fetch query cIds tIds limit hne' hnx,
    fun c hcmem l hl n htn => ?_⟩
  have hlinks : l ∈ fetchedLinks fetch query (dedupCombos cIds tIds) := by
    rw [fetchedLinks]
    exact List.mem_flatten.mpr
      ⟨fetchResponse fetch query c, List.mem_map_of_mem _ hcmem, hl⟩
  exact mergeUnique_represents _ l hlinks n htn

/-- C3 witness for the amended claim: collections `{A,B}` and tags `{X,Y}`
against a remote where every combination filtering on tag `X` raises: the
search still completes and the link returned by the surviving combinations
appears in the merged output. -/
theorem search_links_failsoft_filtered_witness :
    search_links fetchTagXRaises "" ["A", "B"] ["X", "Y"] none none 20 =
      Except.ok ((aggMerged fetchTagXRaises "" ["A", "B"] ["X", "Y"]).take 20,
        issuedCalls "" (dedupCombos ["A", "B"] ["X", "Y"])) :=
  (search_links_failsoft_filtered fetchTagXRaises "" ["A", "B"] ["X", "Y"]
    20 (Or.inl (by decide))
    (fun p => by
      simp only [fetchTagXRaises]
      split <;> simp)).1

end LinkwardenAPI
